import Mathlib

/-!
Verification of the volume-reassembly and delivery pipeline of `server.py`
(split-archive HTTP server).  The Python source is shallowly embedded:

* file contents are `List Nat` (one `Nat` per byte),
* the on-disk part set is a `PartsState` (a map from part index to an
  optional file, plus the trailing `.zip` volume),
* the extraction cache and the 7z invocation are modelled as an explicit
  state machine over a `World` record,
* fallible Python functions (those that `raise`) return `Except`.

Every definition follows the corresponding Python function line by line;
configuration constants keep their source names.  The part count is kept
as an explicit parameter `n` of the model functions (in the deployed
configuration `PART_COUNT = 26`), mirroring the `PART_COUNT` config
constant that those functions read.
-/

namespace Server

/-- A byte of file content.  The value range plays no role in the claims,
so bytes are plain naturals. -/
abbrev Byte := Nat

/-- `CHUNK_SIZE  = 2 * 1024 * 1024` from the config block. -/
def CHUNK_SIZE : Nat := 2 * 1024 * 1024

/-- `FILE_BASE   = "CS1.6_NextClient"` from the config block. -/
def FILE_BASE : String := "CS1.6_NextClient"

/-- `PART_COUNT  = 26` from the config block (the deployed part count). -/
def PART_COUNT : Nat := 26

/-- `EXT_PAD     = 2` from the config block. -/
def EXT_PAD : Nat := 2

/-- `str(i).zfill(EXT_PAD)`: left-pad a decimal string with zeros. -/
def zfill (w : Nat) (s : String) : String :=
  if w ≤ s.length then s else String.mk (List.replicate (w - s.length) '0') ++ s

/-- `part_path(i)`: `files/CS1.6_NextClient.z<ii>` (relative to `PUBLIC_DIR`,
as `pp` renders it). -/
def part_path (i : Nat) : String :=
  "files/" ++ FILE_BASE ++ ".z" ++ zfill EXT_PAD (toString i)

/-- `last_zip_path()`: `files/CS1.6_NextClient.zip`. -/
def last_zip_path : String := "files/" ++ FILE_BASE ++ ".zip"

/-- One on-disk file: its bytes and its modification time. -/
structure PartFile where
  content : List Byte
  mtime : Nat
deriving DecidableEq

/-- The on-disk part set: part `i` (1-based) and the trailing zip volume.
`none` means the file does not exist. -/
structure PartsState where
  part : Nat → Option PartFile
  lastZip : Option PartFile

/-- The probed path list `[part_path(1), …, part_path(n), last_zip_path()]`,
each path paired with the file found there (`none` = absent). -/
def allParts (n : Nat) (ps : PartsState) : List (String × Option PartFile) :=
  (List.range n).map (fun k => (part_path (k + 1), ps.part (k + 1)))
    ++ [(last_zip_path, ps.lastZip)]

/-- The bytes of an optional file; `[]` for an absent file (the Python code
only reads files whose existence was validated first). -/
def contentOf : Option PartFile → List Byte
  | none => []
  | some pf => pf.content

/-- One `shutil.copyfileobj(f, out, CHUNK_SIZE)` call: reads `chunk` bytes at
a time and appends them to the output until the source is exhausted.  The
`chunk = 0` branch exists only for termination; it is unreachable, since the
call site always passes the positive `CHUNK_SIZE`, and every theorem about
this function assumes a positive chunk. -/
def chunkedCopy (chunk : Nat) : List Byte → List Byte
  | [] => []
  | b :: rest =>
    if chunk = 0 then []
    else ((b :: rest).take chunk) ++ chunkedCopy chunk ((b :: rest).drop chunk)
termination_by data => data.length
decreasing_by
  simp only [List.length_drop, List.length_cons]
  omega

/-- The contents of parts `1..n` in ascending order. -/
def partContents (n : Nat) (ps : PartsState) : List (List Byte) :=
  (List.range n).map (fun k => contentOf (ps.part (k + 1)))

/-- `concat_volumes(out_path)`: writes part `1`, …, part `n`, then the final
`.zip` volume into one output file, each via a chunked copy.  The returned
list is the byte content of `out_path` after the call. -/
def concat_volumes (n : Nat) (ps : PartsState) : List Byte :=
  ((List.range n).foldl
      (fun out k => out ++ chunkedCopy CHUNK_SIZE (contentOf (ps.part (k + 1)))) [])
    ++ chunkedCopy CHUNK_SIZE (contentOf ps.lastZip)

/-- `LFS_SIGNATURE = b"version https://git-lfs.github.com/spec"`, as byte values. -/
def LFS_SIGNATURE : List Byte := "version https://git-lfs.github.com/spec".toList.map Char.toNat

/-- `file_head(path, n=96)`: the first 96 bytes of the file; `b""` when the
file cannot be opened (absent file). -/
def file_head : Option PartFile → List Byte
  | none => []
  | some pf => pf.content.take 96

/-- `bytes.startswith(sig)`. -/
def begins_with (sig l : List Byte) : Bool := decide (l.take sig.length = sig)

/-- The `missing` list of `ensure_parts_exist`: the probed paths that do not
exist, in probe order. -/
def missing_paths (n : Nat) (ps : PartsState) : List String :=
  (allParts n ps).filterMap (fun x => if x.2.isNone then some x.1 else none)

/-- `ensure_parts_exist()`: raises (here `.error`) carrying the list of
missing paths when at least one expected file is absent. -/
def ensure_parts_exist (n : Nat) (ps : PartsState) : Except (List String) Unit :=
  if missing_paths n ps = [] then .ok () else .error (missing_paths n ps)

/-- The `suspects` list of `ensure_not_lfs`: the probed paths whose head
starts with the Git LFS signature, in probe order. -/
def lfs_suspects (n : Nat) (ps : PartsState) : List String :=
  (allParts n ps).filterMap
    (fun x => if begins_with LFS_SIGNATURE (file_head x.2) then some x.1 else none)

/-- The remediation hint appended to the placeholder-detection error. -/
def LFS_HINT : String :=
  "Solución: usa build command con \x27git lfs pull\x27 o sube binarios reales."

/-- The `RuntimeError` message of `ensure_not_lfs`: enumerates every offender,
then ends with the remediation hint. -/
def lfs_message (suspects : List String) : String :=
  "Se detectaron PUNTEROS Git LFS (no binarios):\n- "
    ++ String.intercalate "\n- " suspects ++ "\n" ++ LFS_HINT

/-- `ensure_not_lfs()`: raises (here `.error`) carrying the list of suspect
paths when at least one probed file starts with the LFS signature. -/
def ensure_not_lfs (n : Nat) (ps : PartsState) : Except (List String) Unit :=
  if lfs_suspects n ps = [] then .ok () else .error (lfs_suspects n ps)

/-- `latest_parts_mtime()`: `max(os.path.getmtime(p) for p in paths)`.  All
probed files exist whenever the Python code calls this (validation ran
first); an absent file contributes 0 here. -/
def latest_parts_mtime (n : Nat) (ps : PartsState) : Nat :=
  ((allParts n ps).map (fun x => match x.2 with
    | some pf => pf.mtime
    | none => 0)).foldl max 0

/-- Concrete part set for the C1 scenario: three parts of 1 000 000,
1 000 000 and 500 000 bytes plus a 200 000-byte final volume. -/
def ps3 : PartsState where
  part := fun i =>
    if i = 1 then some ⟨List.replicate 1000000 1, 0⟩
    else if i = 2 then some ⟨List.replicate 1000000 2, 0⟩
    else if i = 3 then some ⟨List.replicate 500000 3, 0⟩
    else none
  lastZip := some ⟨List.replicate 200000 4, 0⟩

/-- Concrete two-part set used by witnesses: contents `[7]`, `[8]`, final
volume `[9]`. -/
def psW : PartsState where
  part := fun i =>
    if i = 1 then some ⟨[7], 3⟩ else if i = 2 then some ⟨[8], 5⟩ else none
  lastZip := some ⟨[9], 4⟩

/-- Concrete complete 26-part set in which part 1 exists but is empty. -/
def psEmptyPart : PartsState where
  part := fun i => if i = 1 then some ⟨[], 5⟩ else some ⟨[1], 5⟩
  lastZip := some ⟨[1], 5⟩

/-- Concrete complete 26-part set with part 13 removed. -/
def psMissing : PartsState where
  part := fun i => if i = 13 then none else some ⟨[1], 5⟩
  lastZip := some ⟨[1], 5⟩

/-- Concrete complete 26-part set in which part 2 is a Git LFS pointer
(its content starts with the LFS signature). -/
def psLfs : PartsState where
  part := fun i => if i = 2 then some ⟨LFS_SIGNATURE ++ [10], 5⟩ else some ⟨[1], 5⟩
  lastZip := some ⟨[1], 5⟩

/-- One top-level entry of the extraction directory: a regular file with its
content, or a subdirectory containing (deeper) files with their contents.
One level of nesting suffices for every claim here. -/
inductive Entry where
  | file (name : String) (content : List Byte)
  | dir (name : String) (sub : List (String × List Byte))
deriving DecidableEq

/-- `os.path.isfile(os.path.join(EXTRACT_DIR, f))` for a top-level entry. -/
def Entry.isFile : Entry → Bool
  | .file _ _ => true
  | .dir _ _ => false

/-- The extraction directory `EXTRACT_DIR`: its modification time and its
top-level entries. -/
structure ExtractDir where
  mtime : Nat
  entries : List Entry
deriving DecidableEq

/-- `any(os.path.isfile(os.path.join(EXTRACT_DIR, f)) for f in
os.listdir(EXTRACT_DIR))`: some top-level entry is a regular file. -/
def hasTopLevelFile (d : ExtractDir) : Bool := d.entries.any Entry.isFile

/-- The state read and written by `extract_with_7z`: the part files, 7z
availability, the published extraction cache (`none` = `EXTRACT_DIR` does
not exist), and the outcome of a 7z run — `archiveResult = some es` means
7z would exit 0 producing entries `es`, `none` means it would exit non-zero
leaving the partial output `archivePartial` behind.  `now` is the clock
value stamped on a freshly created directory.  `runs` is a ghost counter of
extraction runs, used only to state cache-hit properties. -/
structure World where
  ps : PartsState
  toolAvailable : Bool
  cache : Option ExtractDir
  archiveResult : Option (List Entry)
  archivePartial : List Entry
  now : Nat
  runs : Nat

/-- The error taxonomy of the pipeline (each raised as a `RuntimeError` in
the source, carrying the enumerated paths where applicable). -/
inductive SrvErr where
  | missingParts (paths : List String)
  | placeholderParts (paths : List String)
  | toolUnavailable
  | extractionFailed
  | emptyExtraction
deriving DecidableEq

/-- The rebuild branch of `extract_with_7z`: `shutil.rmtree(EXTRACT_DIR)`,
`os.makedirs(EXTRACT_DIR)` (a fresh directory stamped `now`), run 7z; on
success `os.utime(EXTRACT_DIR, (parts_mtime, parts_mtime))` and return; on
a non-zero exit raise, leaving the freshly created (empty or partially
written) directory in place. -/
def run_7z (w : World) (pm : Nat) : Except SrvErr ExtractDir × World :=
  match w.archiveResult with
  | none =>
    (.error .extractionFailed,
      { w with cache := some ⟨w.now, w.archivePartial⟩, runs := w.runs + 1 })
  | some es =>
    (.ok ⟨pm, es⟩, { w with cache := some ⟨pm, es⟩, runs := w.runs + 1 })

/-- `ensure_7z()`: raises (`.error`) when the external 7z tool cannot be
invoked. -/
def ensure_7z (w : World) : Except SrvErr Unit :=
  if w.toolAvailable = true then .ok () else .error .toolUnavailable

/-- `extract_with_7z(force)`: validate parts, LFS pointers and 7z
availability (in that order, before the cache is consulted), then serve the
cached extraction when it is up to date — the directory exists, `force` is
off, its mtime is at least the newest part mtime, and it holds at least one
top-level regular file — and otherwise clean and re-extract. -/
def extract_with_7z (n : Nat) (force : Bool) (w : World) :
    Except SrvErr ExtractDir × World :=
  match ensure_parts_exist n w.ps with
  | .error m => (.error (.missingParts m), w)
  | .ok _ =>
    match ensure_not_lfs n w.ps with
    | .error m => (.error (.placeholderParts m), w)
    | .ok _ =>
      match ensure_7z w with
      | .error e => (.error e, w)
      | .ok _ =>
        match w.cache with
        | some d =>
          if force = false ∧ latest_parts_mtime n w.ps ≤ d.mtime
              ∧ hasTopLevelFile d = true then (.ok d, w)
          else run_7z w (latest_parts_mtime n w.ps)
        | none => run_7z w (latest_parts_mtime n w.ps)

/-- The validation preconditions of a rebuild: parts complete, no LFS
pointer, 7z available. -/
def preconds (n : Nat) (w : World) : Prop :=
  ensure_parts_exist n w.ps = .ok () ∧ ensure_not_lfs n w.ps = .ok ()
    ∧ ensure_7z w = .ok ()

/-- A walked regular file: its basename and its content
(`os.path.getsize` is the content length). -/
abbrev WalkedFile := String × List Byte

/-- `os.walk(folder)` flattened in traversal order: the top directory's
regular files first, then each subdirectory's files. -/
def walkFiles (es : List Entry) : List WalkedFile :=
  (es.filterMap fun e => match e with
    | .file na c => some (na, c)
    | .dir _ _ => none)
  ++ (es.filterMap fun e => match e with
    | .file _ _ => none
    | .dir _ sub => some sub).flatten

/-- The size-scan loop of `pick_main_artifact`:
`best, best_size = None, -1`, replacing on strictly larger size. -/
def sizeScan (files : List WalkedFile) : Option WalkedFile × Int :=
  files.foldl
    (fun acc f =>
      if (f.2.length : Int) > acc.2 then (some f, (f.2.length : Int)) else acc)
    (none, -1)

/-- Python's `str.lower()` on a filename (ASCII case folding), computed
character by character so that concrete instances evaluate. -/
def py_lower (s : String) : String := ⟨s.data.map Char.toLower⟩

/-- Recursive companion of the size scan: the first maximum of `b :: l`
under strict improvement (the fold keeps the incumbent on ties). -/
def bestOf (b : WalkedFile) : List WalkedFile → WalkedFile
  | [] => b
  | f :: rest =>
    if (f.2.length : Int) > (b.2.length : Int) then bestOf f rest else bestOf b rest

/-- `PREFERRED_ARTIFACT_NAME = None` from the config block. -/
def PREFERRED_ARTIFACT_NAME : Option String := none

/-- `pick_main_artifact(folder)`: a configured preferred name, matched
case-insensitively in walk order, wins regardless of size; otherwise the
largest file wins, ties going to the first encountered; raises when the
extraction produced no files. -/
def pick_main_artifact (preferred : Option String) (es : List Entry) :
    Except SrvErr WalkedFile :=
  match preferred with
  | some pn =>
    match (walkFiles es).find? (fun f => py_lower f.1 == py_lower pn) with
    | some f => .ok f
    | none =>
      match sizeScan (walkFiles es) with
      | (some best, _) => .ok best
      | (none, _) => .error .emptyExtraction
  | none =>
    match sizeScan (walkFiles es) with
    | (some best, _) => .ok best
    | (none, _) => .error .emptyExtraction

/-- An HTTP handler outcome: the status code sent, and for error responses
the structured diagnostic whose text (`f"ERROR: {e}"`) forms the body. -/
structure HttpResult where
  status : Nat
  err? : Option SrvErr
deriving DecidableEq

/-- `Handler._handle_download_raw`: extract (non-forced), pick the main
artifact, stream it; every raised error is answered with status 500 and a
body carrying that error's text. -/
def handle_download_raw (n : Nat) (w : World) : HttpResult × World :=
  match extract_with_7z n false w with
  | (.error e, w1) => (⟨500, some e⟩, w1)
  | (.ok d, w1) =>
    match pick_main_artifact PREFERRED_ARTIFACT_NAME d.entries with
    | .error e => (⟨500, some e⟩, w1)
    | .ok _ => (⟨200, none⟩, w1)

/-- One `handler.wfile.write(chunk)` against a client that accepts
`remaining` more writes and then resets the connection: the write either
succeeds, leaving one fewer accepted write, or raises. -/
def wfile_write (remaining : Nat) (_chunk : List Byte) : Except Unit Nat :=
  if remaining = 0 then .error () else .ok (remaining - 1)

/-- The write loop of `stream_file`: read `CHUNK_SIZE` bytes at a time and
write them; a `BrokenPipeError`/`ConnectionResetError` is caught and the
loop returns silently.  The result is the bytes actually delivered. -/
def stream_body (remaining : Nat) (data : List Byte) : List Byte :=
  match data with
  | [] => []
  | b :: rest =>
    match wfile_write remaining ((b :: rest).take CHUNK_SIZE) with
    | .error _ => []
    | .ok r => (b :: rest).take CHUNK_SIZE ++ stream_body r ((b :: rest).drop CHUNK_SIZE)
termination_by data.length
decreasing_by
  simp only [List.length_drop, List.length_cons]
  have : CHUNK_SIZE ≠ 0 := by decide
  omega

/-- The state `_handle_concat` touches: the part files and the temporary
concatenation file `CONCAT_TMP` (`none` = absent). -/
structure ConcatWorld where
  ps : PartsState
  concatTmp : Option (List Byte)

/-- A `_handle_concat` outcome: a 200 streamed response carrying the bytes
the client received, or a plain-text error response. -/
inductive ConcatOut where
  | streamed (delivered : List Byte)
  | errorText (status : Nat) (e : SrvErr)
deriving DecidableEq

/-- `Handler._handle_concat`: concatenate the volumes into `CONCAT_TMP`,
stream that file, and remove the temporary in a `finally` — also when the
client disconnected mid-stream (`stream_file` returned silently). -/
def handle_concat (n : Nat) (remaining : Nat) (w : ConcatWorld) :
    ConcatOut × ConcatWorld :=
  match ensure_parts_exist n w.ps with
  | .error m => (.errorText 500 (.missingParts m), w)
  | .ok _ =>
    let w1 : ConcatWorld := { w with concatTmp := some (concat_volumes n w.ps) }
    let delivered := stream_body remaining (concat_volumes n w.ps)
    (.streamed delivered, { w1 with concatTmp := none })

/-- Concrete complete part set for part count 1: one part plus the final
volume, all mtimes 5. -/
def ps1 : PartsState where
  part := fun _ => some ⟨[1], 5⟩
  lastZip := some ⟨[2], 5⟩

/-- A valid Ready cache entry (mtime 5, one top-level regular file). -/
def dC2 : ExtractDir := ⟨5, [Entry.file "a" [1, 2, 3]]⟩

/-- Concrete world for C2: complete parts, valid Ready entry, 7z available
but exiting non-zero. -/
def wC2 : World where
  ps := ps1
  toolAvailable := true
  cache := some dC2
  archiveResult := none
  archivePartial := []
  now := 9
  runs := 0

/-- The extraction result served in the C5 witness scenario. -/
def dC5 : ExtractDir := ⟨5, [Entry.file "a" [1, 2]]⟩

/-- Concrete world for the C5 witness: no cache yet, 7z succeeds with one
top-level regular file. -/
def wC5 : World where
  ps := ps1
  toolAvailable := true
  cache := none
  archiveResult := some [Entry.file "a" [1, 2]]
  archivePartial := []
  now := 9
  runs := 0

/-- `wC5` after its first successful rebuild. -/
def wC5r : World := { wC5 with cache := some dC5, runs := 1 }

/-- Concrete world for the C5 counterexample: 7z succeeds but every
extracted file sits inside a subdirectory. -/
def wC5c : World where
  ps := ps1
  toolAvailable := true
  cache := none
  archiveResult := some [Entry.dir "sub" [("f", [1, 2, 3])]]
  archivePartial := []
  now := 9
  runs := 0

/-- A fresh, non-empty cache directory whose only entry is a subdirectory. -/
def dC6 : ExtractDir := ⟨5, [Entry.dir "s" [("f", [1])]]⟩

/-- Concrete world for the C6 counterexample: cache present, fresh and
non-empty, yet without a top-level regular file. -/
def wC6 : World where
  ps := ps1
  toolAvailable := true
  cache := some dC6
  archiveResult := some [Entry.file "x" [1]]
  archivePartial := []
  now := 9
  runs := 0

/-- Concrete world for the C6 witness: a valid Ready entry. -/
def wC6w : World where
  ps := ps1
  toolAvailable := true
  cache := some dC5
  archiveResult := some [Entry.file "a" [1, 2]]
  archivePartial := []
  now := 9
  runs := 0

/-- Concrete world for the C10 witness: a fresh cache (mtime 50, far newer
than every part) holding only a subdirectory. -/
def wC10 : World where
  ps := ps1
  toolAvailable := true
  cache := some ⟨50, [Entry.dir "sub" [("f", [1])]]⟩
  archiveResult := some [Entry.dir "sub" [("f", [1])]]
  archivePartial := []
  now := 9
  runs := 3

/-- Concrete world for the C3 counterexample: the single expected part is
absent (only the final volume exists). -/
def wC3 : World where
  ps := { part := fun _ => none, lastZip := some ⟨[2], 5⟩ }
  toolAvailable := true
  cache := none
  archiveResult := some [Entry.file "a" [1]]
  archivePartial := []
  now := 9
  runs := 0

/-- Concrete extracted tree for the C7 witness. -/
def esW : List Entry :=
  [Entry.file "a.txt" [1], Entry.file "SETUP.exe" [1, 2],
   Entry.dir "sub" [("big.bin", [1, 2, 3, 4])]]

/-- Concrete extracted tree with no regular files anywhere. -/
def esE : List Entry := [Entry.dir "sub" []]

/-- Concrete state for the C9 witness: complete parts and a stale leftover
temporary file. -/
def wC9 : ConcatWorld where
  ps := ps1
  concatTmp := some [5]

theorem chunkedCopy_of_pos (chunk : Nat) (hc : chunk ≠ 0) :
    ∀ (k : Nat) (data : List Byte), data.length ≤ k → chunkedCopy chunk data = data := by
  intro k
  induction k with
  | zero =>
    intro data hd
    have : data = [] := by
      cases data with
      | nil => rfl
      | cons b rest => simp at hd
    simp [this, chunkedCopy]
  | succ k ih =>
    intro data hd
    cases data with
    | nil => simp [chunkedCopy]
    | cons b rest =>
      rw [chunkedCopy, if_neg hc]
      rw [ih ((b :: rest).drop chunk)
        (by rw [List.length_drop]; simp only [List.length_cons] at hd ⊢; omega)]
      exact List.take_append_drop chunk (b :: rest)

/-- A positive chunk size makes the chunked copy byte-exact. -/
theorem chunkedCopy_eq (chunk : Nat) (hc : chunk ≠ 0) (data : List Byte) :
    chunkedCopy chunk data = data :=
  chunkedCopy_of_pos chunk hc data.length data le_rfl

theorem foldl_append_eq_join {α : Type} (f : α → List Byte) :
    ∀ (l : List α) (init : List Byte),
      l.foldl (fun out k => out ++ f k) init = init ++ (l.map f).flatten := by
  intro l
  induction l with
  | nil => intro init; simp
  | cons a t ih => intro init; simp [ih, List.append_assoc]

/-- `concat_volumes` is the exact concatenation of parts `1..n` followed by
the final volume. -/
theorem concat_volumes_eq (n : Nat) (ps : PartsState) :
    concat_volumes n ps = (partContents n ps).flatten ++ contentOf ps.lastZip := by
  unfold concat_volumes partContents
  have hchunk : CHUNK_SIZE ≠ 0 := by decide
  rw [foldl_append_eq_join (fun k => chunkedCopy CHUNK_SIZE (contentOf (ps.part (k + 1))))]
  rw [chunkedCopy_eq _ hchunk]
  congr 1
  · rw [List.nil_append]
    congr 1
    apply List.map_congr_left
    intro k _
    exact chunkedCopy_eq _ hchunk _

/-- The emitted length is the sum of the part sizes. -/
theorem concat_volumes_length (n : Nat) (ps : PartsState) :
    (concat_volumes n ps).length
      = ((partContents n ps).map List.length).sum + (contentOf ps.lastZip).length := by
  rw [concat_volumes_eq]
  simp [List.length_flatten]

/-- C1 (amended): `concat_volumes` emits the byte-exact concatenation of all
parts in ascending sequence order (parts `1..n` then the final volume); the
total length equals the sum of the part sizes; when the first part is
non-empty the first emitted byte is its first byte, and when the final
volume is non-empty the last emitted byte is its last byte. -/
theorem C1_concat_volumes_byte_exact (n : Nat) (ps : PartsState) :
    concat_volumes n ps = (partContents n ps).flatten ++ contentOf ps.lastZip ∧
    (concat_volumes n ps).length
      = ((partContents n ps).map List.length).sum + (contentOf ps.lastZip).length ∧
    (∀ c, (partContents n ps).head? = some c → c ≠ [] →
      (concat_volumes n ps).head? = c.head?) ∧
    (contentOf ps.lastZip ≠ [] →
      (concat_volumes n ps).getLast? = (contentOf ps.lastZip).getLast?) := by
  refine ⟨concat_volumes_eq n ps, concat_volumes_length n ps, ?_, ?_⟩
  · intro c hc hcne
    rw [concat_volumes_eq]
    cases hpc : partContents n ps with
    | nil => rw [hpc] at hc; simp at hc
    | cons c0 t =>
      rw [hpc] at hc
      simp only [List.head?_cons, Option.some.injEq] at hc
      subst hc
      obtain ⟨b, c', rfl⟩ := List.exists_cons_of_ne_nil hcne
      simp [hpc]
  · intro hz
    rw [concat_volumes_eq]
    exact List.getLast?_append_of_ne_nil _ hz

/-- C1 witness: the theorem applied to the concrete two-part set `psW`. -/
theorem C1_concat_volumes_byte_exact_witness :
    (concat_volumes 2 psW).head? = some 7 ∧ (concat_volumes 2 psW).getLast? = some 9 := by
  obtain ⟨-, -, h3, h4⟩ := C1_concat_volumes_byte_exact 2 psW
  constructor
  · have := h3 [7] (by decide) (by decide)
    simpa using this
  · have := h4 (by decide)
    rw [this]
    decide

/-- C1 counterexample: for the spec scenario (parts of 1 000 000, 1 000 000
and 500 000 bytes plus a 200 000-byte final volume) the emitted stream is
2 700 000 bytes, not the 3 700 000 the claim states. -/
theorem C1_total_is_2700000_not_3700000 :
    (concat_volumes 3 ps3).length = 2700000 ∧ (concat_volumes 3 ps3).length ≠ 3700000 := by
  have h := concat_volumes_length 3 ps3
  have hp : partContents 3 ps3
      = [List.replicate 1000000 1, List.replicate 1000000 2, List.replicate 500000 3] := rfl
  have s1 : ((partContents 3 ps3).map List.length).sum = 2500000 := by
    rw [hp]
    simp only [List.map_cons, List.map_nil, List.length_replicate, List.sum_cons,
      List.sum_nil]
    omega
  have s2 : (contentOf ps3.lastZip).length = 200000 := by
    have hz : contentOf ps3.lastZip = List.replicate 200000 4 := rfl
    rw [hz]
    exact List.length_replicate 200000 4
  rw [s1, s2] at h
  omega

theorem missing_paths_eq_nil_iff (n : Nat) (ps : PartsState) :
    missing_paths n ps = [] ↔ ∀ x ∈ allParts n ps, x.2.isSome = true := by
  unfold missing_paths
  rw [List.filterMap_eq_nil_iff]
  constructor
  · intro h x hx
    have := h x hx
    cases hx2 : x.2 with
    | none => rw [hx2] at this; simp at this
    | some pf => simp
  · intro h x hx
    have := h x hx
    cases hx2 : x.2 with
    | none => rw [hx2] at this; simp at this
    | some pf => simp

theorem mem_missing_paths (n : Nat) (ps : PartsState) (p : String) :
    p ∈ missing_paths n ps ↔ (p, (none : Option PartFile)) ∈ allParts n ps := by
  unfold missing_paths
  rw [List.mem_filterMap]
  constructor
  · rintro ⟨⟨q, f⟩, hmem, hf⟩
    cases f with
    | none => simp at hf; subst hf; exact hmem
    | some pf => simp at hf
  · intro hmem
    exact ⟨(p, none), hmem, by simp⟩

/-- C4 (amended): `ensure_parts_exist` succeeds iff every expected part file
(each numbered volume and the final volume) exists on disk — emptiness is
not checked; when it fails, the error enumerates exactly the absent paths
and no others, not just the first. -/
theorem C4_parts_validation (n : Nat) (ps : PartsState) :
    (ensure_parts_exist n ps = .ok () ↔ ∀ x ∈ allParts n ps, x.2.isSome = true) ∧
    (∀ m, ensure_parts_exist n ps = .error m →
      ∀ p, p ∈ m ↔ (p, (none : Option PartFile)) ∈ allParts n ps) := by
  constructor
  · rw [← missing_paths_eq_nil_iff]
    unfold ensure_parts_exist
    constructor
    · intro h
      by_contra hne
      rw [if_neg hne] at h
      exact Except.noConfusion h
    · intro h
      rw [if_pos h]
  · intro m hm p
    unfold ensure_parts_exist at hm
    by_cases h : missing_paths n ps = []
    · rw [if_pos h] at hm; exact Except.noConfusion hm
    · rw [if_neg h] at hm
      cases hm
      exact mem_missing_paths n ps p

/-- C4 witness: the theorem applied to the 26-part set with part 13 absent:
its validation error contains exactly `files/CS1.6_NextClient.z13`. -/
theorem C4_parts_validation_witness :
    part_path 13 ∈ missing_paths PART_COUNT psMissing ∧
    part_path 7 ∉ missing_paths PART_COUNT psMissing := by
  have h := (C4_parts_validation PART_COUNT psMissing).2
  have he : ensure_parts_exist PART_COUNT psMissing
      = .error (missing_paths PART_COUNT psMissing) := by
    rw [ensure_parts_exist, if_neg (by decide)]
  constructor
  · exact (h _ he (part_path 13)).mpr (by decide)
  · intro hc
    have := (h _ he (part_path 7)).mp hc
    revert this
    decide

/-- C4 counterexample: in the complete part set `psEmptyPart`, part 1 exists
but is empty (0 bytes), yet validation succeeds — refuting the claim that
validation succeeds only when every part is non-empty. -/
theorem C4_empty_part_accepted :
    psEmptyPart.part 1 = some ⟨[], 5⟩ ∧
    ensure_parts_exist PART_COUNT psEmptyPart = .ok () := by
  constructor
  · rfl
  · rw [ensure_parts_exist, if_pos (by decide)]

/-- Probing the 96-byte head for the 39-byte signature is the same as
probing the whole content. -/
theorem begins_with_file_head (f : Option PartFile) :
    begins_with LFS_SIGNATURE (file_head f) = begins_with LFS_SIGNATURE (contentOf f) := by
  cases f with
  | none => rfl
  | some pf =>
    show begins_with LFS_SIGNATURE (pf.content.take 96)
        = begins_with LFS_SIGNATURE pf.content
    unfold begins_with
    have hlen : LFS_SIGNATURE.length = 39 := rfl
    have hmin : min 39 96 = 39 := rfl
    rw [List.take_take, hlen, hmin]

theorem begins_with_nil : begins_with LFS_SIGNATURE [] = false := by decide

theorem lfs_suspects_eq_nil_iff (n : Nat) (ps : PartsState) :
    lfs_suspects n ps = []
      ↔ ∀ x ∈ allParts n ps, ∀ pf, x.2 = some pf →
          begins_with LFS_SIGNATURE pf.content = false := by
  unfold lfs_suspects
  rw [List.filterMap_eq_nil_iff]
  constructor
  · intro h x hx pf hpf
    have ht := h x hx
    rw [begins_with_file_head] at ht
    rw [hpf] at ht
    have hcc : contentOf (some pf) = pf.content := rfl
    rw [hcc] at ht
    cases hbb : begins_with LFS_SIGNATURE pf.content with
    | false => rfl
    | true => rw [hbb] at ht; simp at ht
  · intro h x hx
    rw [begins_with_file_head x.2]
    cases hx2 : x.2 with
    | none =>
      rw [if_neg]
      rw [show contentOf none = [] from rfl, begins_with_nil]
      simp
    | some pf =>
      rw [if_neg]
      rw [show contentOf (some pf) = pf.content from rfl, h x hx pf hx2]
      simp

theorem mem_lfs_suspects (n : Nat) (ps : PartsState) (p : String) :
    p ∈ lfs_suspects n ps
      ↔ ∃ pf, (p, some pf) ∈ allParts n ps
          ∧ begins_with LFS_SIGNATURE pf.content = true := by
  unfold lfs_suspects
  rw [List.mem_filterMap]
  constructor
  · rintro ⟨⟨q, f⟩, hmem, hf⟩
    by_cases hb : begins_with LFS_SIGNATURE (file_head f) = true
    · rw [if_pos hb] at hf
      cases hf
      rw [begins_with_file_head] at hb
      cases f with
      | none => rw [show contentOf none = [] from rfl, begins_with_nil] at hb; simp at hb
      | some pf => exact ⟨pf, hmem, hb⟩
    · rw [if_neg hb] at hf
      exact Option.noConfusion hf
  · rintro ⟨pf, hmem, hb⟩
    refine ⟨(p, some pf), hmem, ?_⟩
    rw [if_pos]
    rw [begins_with_file_head]
    exact hb

/-- C8: `ensure_not_lfs` inspects a fixed-length signature (the first 96
bytes probed for the 39-byte Git LFS signature) at the start of each
expected part file; it fails exactly when some probed file's content begins
with the signature, the error enumerates exactly the offenders (not just
the first), the error message ends with a remediation hint, and it succeeds
(changing nothing — it is read-only) when no head matches. -/
theorem C8_placeholder_detection (n : Nat) (ps : PartsState) :
    (ensure_not_lfs n ps = .ok ()
      ↔ ∀ x ∈ allParts n ps, ∀ pf, x.2 = some pf →
          begins_with LFS_SIGNATURE pf.content = false) ∧
    (∀ m, ensure_not_lfs n ps = .error m →
      ∀ p, p ∈ m ↔ ∃ pf, (p, some pf) ∈ allParts n ps
          ∧ begins_with LFS_SIGNATURE pf.content = true) ∧
    (∀ m, ∃ s, lfs_message m = s ++ LFS_HINT) := by
  refine ⟨?_, ?_, ?_⟩
  · rw [← lfs_suspects_eq_nil_iff]
    unfold ensure_not_lfs
    constructor
    · intro h
      by_contra hne
      rw [if_neg hne] at h
      exact Except.noConfusion h
    · intro h
      rw [if_pos h]
  · intro m hm p
    unfold ensure_not_lfs at hm
    by_cases h : lfs_suspects n ps = []
    · rw [if_pos h] at hm; exact Except.noConfusion hm
    · rw [if_neg h] at hm
      cases hm
      exact mem_lfs_suspects n ps p
  · intro m
    exact ⟨"Se detectaron PUNTEROS Git LFS (no binarios):\n- "
      ++ String.intercalate "\n- " m ++ "\n", by rw [lfs_message, String.append_assoc]⟩

/-- C8 witness: the theorem applied to the 26-part set in which part 2 is an
LFS pointer: exactly part 2 is reported, and the message carries the hint. -/
theorem C8_placeholder_detection_witness :
    part_path 2 ∈ lfs_suspects PART_COUNT psLfs ∧
    part_path 3 ∉ lfs_suspects PART_COUNT psLfs ∧
    ∃ s, lfs_message [part_path 2] = s ++ LFS_HINT := by
  obtain ⟨-, h2, h3⟩ := C8_placeholder_detection PART_COUNT psLfs
  have he : ensure_not_lfs PART_COUNT psLfs
      = .error (lfs_suspects PART_COUNT psLfs) := by
    rw [ensure_not_lfs, if_neg (by decide)]
  refine ⟨?_, ?_, h3 [part_path 2]⟩
  · exact (h2 _ he (part_path 2)).mpr
      ⟨⟨LFS_SIGNATURE ++ [10], 5⟩, by decide, by decide⟩
  · decide

theorem run_7z_runs (w : World) (pm : Nat) : (run_7z w pm).2.runs = w.runs + 1 := by
  unfold run_7z
  cases w.archiveResult <;> rfl

theorem run_7z_fst_error (w : World) (pm : Nat) (e : SrvErr)
    (he : (run_7z w pm).1 = .error e) : e = .extractionFailed := by
  unfold run_7z at he
  cases harch : w.archiveResult with
  | none =>
    rw [harch] at he
    exact (Except.error.inj he).symm
  | some es =>
    rw [harch] at he
    exact Except.noConfusion he

/-- Under passing validation, an up-to-date cache is served unchanged. -/
theorem extract_hit (n : Nat) (w : World) (d : ExtractDir)
    (h1 : ensure_parts_exist n w.ps = .ok ()) (h2 : ensure_not_lfs n w.ps = .ok ())
    (h3 : ensure_7z w = .ok ()) (hc : w.cache = some d)
    (hmt : latest_parts_mtime n w.ps ≤ d.mtime) (hfile : hasTopLevelFile d = true) :
    extract_with_7z n false w = (.ok d, w) := by
  simp [extract_with_7z, h1, h2, h3, hc, hmt, hfile]

/-- Under passing validation, a missing, stale, forced-over or
top-level-file-less cache leads to the rebuild branch. -/
theorem extract_rebuild (n : Nat) (force : Bool) (w : World)
    (h1 : ensure_parts_exist n w.ps = .ok ()) (h2 : ensure_not_lfs n w.ps = .ok ())
    (h3 : ensure_7z w = .ok ())
    (hmiss : w.cache = none ∨ ∃ d, w.cache = some d ∧
      (force = true ∨ d.mtime < latest_parts_mtime n w.ps ∨ hasTopLevelFile d = false)) :
    extract_with_7z n force w = run_7z w (latest_parts_mtime n w.ps) := by
  simp only [extract_with_7z, h1, h2, h3]
  rcases hmiss with hc | ⟨d, hc, htrig⟩
  · rw [hc]
  · rw [hc]
    simp only []
    rw [if_neg]
    rintro ⟨hf, hmt, hfile⟩
    rcases htrig with ht | ht | ht
    · rw [hf] at ht; exact Bool.noConfusion ht
    · omega
    · rw [hfile] at ht; exact Bool.noConfusion ht

/-- Validation failures and the tool check happen before the cache is
touched: such an error leaves the state unchanged. -/
theorem extract_early_failure (n : Nat) (force : Bool) (w : World) (e : SrvErr)
    (he : (extract_with_7z n force w).1 = .error e) (hne : e ≠ .extractionFailed) :
    (extract_with_7z n force w).2 = w := by
  cases hp : ensure_parts_exist n w.ps with
  | error m => simp only [extract_with_7z, hp]
  | ok u =>
    cases u
    cases hl : ensure_not_lfs n w.ps with
    | error m => simp only [extract_with_7z, hp, hl]
    | ok u2 =>
      cases u2
      cases h7 : ensure_7z w with
      | error e2 => simp only [extract_with_7z, hp, hl, h7]
      | ok u3 =>
        cases u3
        exfalso
        cases hc : w.cache with
        | none =>
          rw [extract_rebuild n force w hp hl h7 (Or.inl hc)] at he
          exact hne (run_7z_fst_error w _ e he)
        | some d =>
          by_cases hhit : force = false ∧ latest_parts_mtime n w.ps ≤ d.mtime
              ∧ hasTopLevelFile d = true
          · rcases hhit with ⟨hf, hmt, hfile⟩
            cases hf
            rw [extract_hit n w d hp hl h7 hc hmt hfile] at he
            exact Except.noConfusion he
          · have htrig : force = true ∨ d.mtime < latest_parts_mtime n w.ps
                ∨ hasTopLevelFile d = false := by
              by_contra hno
              push_neg at hno
              obtain ⟨hf, hmt, hfile⟩ := hno
              exact hhit ⟨by revert hf; cases force <;> simp,
                by omega, by revert hfile; cases hasTopLevelFile d <;> simp⟩
            rw [extract_rebuild n force w hp hl h7 (Or.inr ⟨d, hc, htrig⟩)] at he
            exact hne (run_7z_fst_error w _ e he)

/-- C2 (amended): a rebuild failure during validation — missing parts, LFS
placeholders, or the 7z tool unavailable — leaves the state, and so the
previous Ready cache entry, untouched, and that entry is still served by a
non-forced request passing validation with an up-to-date cache.  An
extraction failure (7z exiting non-zero), by contrast, happens only after
the previous entry was already deleted and does not preserve it (see the
counterexample). -/
theorem C2_early_failures_preserve_cache (n : Nat) (force : Bool) (w : World) :
    (∀ e, (extract_with_7z n force w).1 = .error e → e ≠ .extractionFailed →
      (extract_with_7z n force w).2 = w) ∧
    (∀ d, preconds n w → w.cache = some d →
      latest_parts_mtime n w.ps ≤ d.mtime → hasTopLevelFile d = true →
      extract_with_7z n false w = (.ok d, w)) := by
  constructor
  · intro e he hne
    exact extract_early_failure n force w e he hne
  · intro d hpre hc hmt hfile
    obtain ⟨h1, h2, h3⟩ := hpre
    exact extract_hit n w d h1 h2 h3 hc hmt hfile

/-- C2 witness: the theorem applied to `wC2` before the failing rebuild —
a tool-unavailable failure preserves the state, and the valid entry is
served. -/
theorem C2_early_failures_preserve_cache_witness :
    (extract_with_7z 1 false { wC2 with toolAvailable := false }).2
      = { wC2 with toolAvailable := false } ∧
    extract_with_7z 1 false wC2 = (.ok dC2, wC2) := by
  obtain ⟨ha, -⟩ := C2_early_failures_preserve_cache 1 false
    { wC2 with toolAvailable := false }
  obtain ⟨-, hb⟩ := C2_early_failures_preserve_cache 1 false wC2
  constructor
  · exact ha .toolUnavailable rfl (by decide)
  · exact hb dC2 ⟨rfl, rfl, rfl⟩ rfl (by decide) rfl

/-- C2 counterexample: from the Ready state `wC2`, a forced rebuild whose
7z run fails destroys the previous entry (the cache now holds the fresh
empty directory), and the following non-forced request fails instead of
serving the old entry. -/
theorem C2_extraction_failure_destroys_previous_entry :
    (extract_with_7z 1 true wC2).1 = .error .extractionFailed ∧
    wC2.cache = some dC2 ∧
    (extract_with_7z 1 true wC2).2.cache = some ⟨9, []⟩ ∧
    (extract_with_7z 1 false (extract_with_7z 1 true wC2).2).1
      = .error .extractionFailed := by
  refine ⟨rfl, rfl, rfl, rfl⟩

/-- Inversion of a successful `extract_with_7z` call: validation passed, and
the result is either a cache hit (state unchanged) or a fresh rebuild. -/
theorem extract_ok_cases (n : Nat) (force : Bool) (w : World) (d : ExtractDir)
    (w1 : World) (h : extract_with_7z n force w = (.ok d, w1)) :
    ensure_parts_exist n w.ps = .ok () ∧ ensure_not_lfs n w.ps = .ok ()
      ∧ ensure_7z w = .ok () ∧
    ((w1 = w ∧ w.cache = some d ∧ latest_parts_mtime n w.ps ≤ d.mtime
        ∧ hasTopLevelFile d = true ∧ force = false) ∨
      (∃ es, w.archiveResult = some es ∧ d = ⟨latest_parts_mtime n w.ps, es⟩
        ∧ w1 = { w with cache := some d, runs := w.runs + 1 })) := by
  cases hp : ensure_parts_exist n w.ps with
  | error m =>
    exfalso
    have : (extract_with_7z n force w).1 = .error (.missingParts m) := by
      simp only [extract_with_7z, hp]
    rw [h] at this
    exact Except.noConfusion this
  | ok u =>
    cases u
    cases hl : ensure_not_lfs n w.ps with
    | error m =>
      exfalso
      have : (extract_with_7z n force w).1 = .error (.placeholderParts m) := by
        simp only [extract_with_7z, hp, hl]
      rw [h] at this
      exact Except.noConfusion this
    | ok u2 =>
      cases u2
      cases h7 : ensure_7z w with
      | error e2 =>
        exfalso
        have : (extract_with_7z n force w).1 = .error e2 := by
          simp only [extract_with_7z, hp, hl, h7]
        rw [h] at this
        exact Except.noConfusion this
      | ok u3 =>
        cases u3
        refine ⟨rfl, rfl, rfl, ?_⟩
        cases hc : w.cache with
        | none =>
          right
          rw [extract_rebuild n force w hp hl h7 (Or.inl hc)] at h
          unfold run_7z at h
          cases ha : w.archiveResult with
          | none =>
            rw [ha] at h
            exact absurd (congrArg Prod.fst h) (by simp)
          | some es =>
            rw [ha] at h
            have h1 := congrArg Prod.fst h
            have h2 := congrArg Prod.snd h
            simp only at h1 h2
            have hd := Except.ok.inj h1
            exact ⟨es, rfl, hd.symm, by rw [← h2, ← hd]⟩
        | some d0 =>
          by_cases hhit : force = false ∧ latest_parts_mtime n w.ps ≤ d0.mtime
              ∧ hasTopLevelFile d0 = true
          · obtain ⟨hf, hmt, hfile⟩ := hhit
            cases hf
            rw [extract_hit n w d0 hp hl h7 hc hmt hfile] at h
            have h1 := Except.ok.inj (congrArg Prod.fst h)
            have h2 := congrArg Prod.snd h
            simp only at h2
            cases h1
            exact Or.inl ⟨h2.symm, rfl, hmt, hfile, rfl⟩
          · have htrig : force = true ∨ d0.mtime < latest_parts_mtime n w.ps
                ∨ hasTopLevelFile d0 = false := by
              by_contra hno
              push_neg at hno
              obtain ⟨hf, hmt, hfile⟩ := hno
              exact hhit ⟨by revert hf; cases force <;> simp, by omega,
                by revert hfile; cases hasTopLevelFile d0 <;> simp⟩
            right
            rw [extract_rebuild n force w hp hl h7 (Or.inr ⟨d0, hc, htrig⟩)] at h
            unfold run_7z at h
            cases ha : w.archiveResult with
            | none =>
              rw [ha] at h
              exact absurd (congrArg Prod.fst h) (by simp)
            | some es =>
              rw [ha] at h
              have h1 := congrArg Prod.fst h
              have h2 := congrArg Prod.snd h
              simp only at h1 h2
              have hd := Except.ok.inj h1
              exact ⟨es, rfl, hd.symm, by rw [← h2, ← hd]⟩

/-- C5 (amended): after a successful rebuild whose extraction directory
holds at least one top-level regular file, a second non-forced invocation
with unchanged parts is a cache hit: it returns the identical directory
(hence byte-identical output), re-runs no extraction (the ghost run counter
is unchanged) and leaves the state untouched.  Without a top-level regular
file the second invocation re-extracts (see the counterexample). -/
theorem C5_rebuild_idempotent (n : Nat) (force : Bool) (w : World) (d : ExtractDir)
    (w1 : World) (h : extract_with_7z n force w = (.ok d, w1))
    (hfile : hasTopLevelFile d = true) :
    extract_with_7z n false w1 = (.ok d, w1) ∧
    (extract_with_7z n false w1).2.runs = w1.runs := by
  obtain ⟨h1, h2, h3, hcase⟩ := extract_ok_cases n force w d w1 h
  have key : extract_with_7z n false w1 = (.ok d, w1) := by
    rcases hcase with ⟨hw, hc, hmt, -, -⟩ | ⟨es, ha, hd, hw1⟩
    · subst hw
      exact extract_hit n _ d h1 h2 h3 hc hmt hfile
    · subst hw1
      refine extract_hit n _ d h1 h2 h3 rfl ?_ hfile
      rw [hd]
  exact ⟨key, by rw [key]⟩

/-- C5 witness: the theorem applied to the state after the first successful
rebuild of `wC5`. -/
theorem C5_rebuild_idempotent_witness :
    extract_with_7z 1 false wC5r = (.ok dC5, wC5r) ∧
    (extract_with_7z 1 false wC5r).2.runs = wC5r.runs := by
  have h : extract_with_7z 1 false wC5 = (.ok dC5, wC5r) := rfl
  exact C5_rebuild_idempotent 1 false wC5 dC5 wC5r h rfl

/-- C5 counterexample: when the successful extraction put every file inside
a subdirectory, the second non-forced invocation is not a cache hit — it
runs the extraction again (ghost counter 2 after two calls). -/
theorem C5_counterexample_subdir_not_cache_hit :
    (extract_with_7z 1 false wC5c).1
      = .ok ⟨5, [Entry.dir "sub" [("f", [1, 2, 3])]]⟩ ∧
    (extract_with_7z 1 false wC5c).2.runs = 1 ∧
    (extract_with_7z 1 false (extract_with_7z 1 false wC5c).2).2.runs = 2 :=
  ⟨rfl, rfl, rfl⟩

/-- C6 (amended): under passing validation, the next request re-runs
extraction exactly when the caller forces, the extraction directory is
absent, some part's mtime exceeds the directory's recorded mtime, or the
directory holds no top-level regular file (the source checks for a
top-level regular file, not mere non-emptiness of the directory). -/
theorem C6_rebuild_trigger (n : Nat) (force : Bool) (w : World)
    (hpre : preconds n w) :
    (extract_with_7z n force w).2.runs = w.runs + 1
      ↔ (force = true ∨ w.cache = none
          ∨ ∃ d, w.cache = some d ∧
              (d.mtime < latest_parts_mtime n w.ps ∨ hasTopLevelFile d = false)) := by
  obtain ⟨h1, h2, h3⟩ := hpre
  constructor
  · intro hruns
    by_contra hno
    push_neg at hno
    obtain ⟨hf, hcn, hsome⟩ := hno
    cases hcex : w.cache with
    | none => exact hcn hcex
    | some d =>
      have hd := hsome d hcex
      push_neg at hd
      obtain ⟨hmt, hfile⟩ := hd
      have hforce : force = false := by revert hf; cases force <;> simp
      subst hforce
      rw [extract_hit n w d h1 h2 h3 hcex (by omega)
        (by revert hfile; cases hasTopLevelFile d <;> simp)] at hruns
      simp at hruns
  · intro htrig
    have hrb : extract_with_7z n force w = run_7z w (latest_parts_mtime n w.ps) := by
      apply extract_rebuild n force w h1 h2 h3
      rcases htrig with ht | ht | ⟨d, hc, ht⟩
      · cases hcx : w.cache with
        | none => exact Or.inl rfl
        | some d => exact Or.inr ⟨d, rfl, Or.inl ht⟩
      · exact Or.inl ht
      · exact Or.inr ⟨d, hc, Or.inr ht⟩
    rw [hrb, run_7z_runs]

/-- C6 witness: forcing triggers a rebuild of the valid Ready state `wC6w`
(the theorem applied there), while the same state without force is a cache
hit. -/
theorem C6_rebuild_trigger_witness :
    (extract_with_7z 1 true wC6w).2.runs = wC6w.runs + 1 ∧
    (extract_with_7z 1 false wC6w).2.runs = wC6w.runs := by
  constructor
  · exact (C6_rebuild_trigger 1 true wC6w ⟨rfl, rfl, rfl⟩).mpr (Or.inl rfl)
  · rfl

/-- C6 counterexample: the state `wC6` has `force` off, a present and
non-empty extraction directory at least as new as every part — none of the
claim's three triggers — yet the next request re-runs extraction, because
the directory has no top-level regular file. -/
theorem C6_counterexample_nonempty_dir_still_rebuilds :
    (extract_with_7z 1 false wC6).2.runs = wC6.runs + 1 ∧
    wC6.cache = some dC6 ∧ dC6.entries ≠ [] ∧
    latest_parts_mtime 1 wC6.ps ≤ dC6.mtime := by
  refine ⟨rfl, rfl, by decide, by decide⟩

/-- C10: the cache-validity check inspects only regular files directly at
the top level of the extraction directory — whenever the cached directory's
files all reside inside subdirectories, the cache is never treated as
valid, so every non-forced request under passing validation re-runs the
extraction even when no source part has changed. -/
theorem C10_subdir_only_cache_never_valid (n : Nat) (w : World) (d : ExtractDir)
    (hpre : preconds n w) (hc : w.cache = some d)
    (hsub : ∀ e ∈ d.entries, e.isFile = false) :
    (extract_with_7z n false w).2.runs = w.runs + 1 := by
  obtain ⟨h1, h2, h3⟩ := hpre
  have hfile : hasTopLevelFile d = false := by
    unfold hasTopLevelFile
    rw [List.any_eq_false]
    intro e he
    rw [hsub e he]
    exact Bool.false_ne_true
  rw [extract_rebuild n false w h1 h2 h3 (Or.inr ⟨d, hc, Or.inr (Or.inr hfile)⟩),
    run_7z_runs]

/-- C10 witness: the theorem applied to `wC10`, whose cache is far newer
than every part but holds only a subdirectory: extraction re-runs. -/
theorem C10_subdir_only_cache_never_valid_witness :
    (extract_with_7z 1 false wC10).2.runs = wC10.runs + 1 :=
  C10_subdir_only_cache_never_valid 1 wC10 ⟨50, [Entry.dir "sub" [("f", [1])]]⟩
    ⟨rfl, rfl, rfl⟩ rfl (by decide)

/-- C3 (amended): when at least one expected part file is absent, the
download handler responds with status 500 — not a 404-class status — whose
plain-text diagnostic enumerates exactly the missing paths; every other
failure of the operation also yields status 500. -/
theorem C3_download_missing_parts_500 (n : Nat) (w : World) :
    (missing_paths n w.ps ≠ [] →
      handle_download_raw n w
        = (⟨500, some (.missingParts (missing_paths n w.ps))⟩, w)) ∧
    (∀ e, (handle_download_raw n w).1.err? = some e →
      (handle_download_raw n w).1.status = 500) := by
  constructor
  · intro hmiss
    have herr : ensure_parts_exist n w.ps = .error (missing_paths n w.ps) := by
      unfold ensure_parts_exist
      rw [if_neg hmiss]
    simp only [handle_download_raw, extract_with_7z, herr]
  · intro e he
    cases hext : extract_with_7z n false w with
    | mk r w1 =>
      cases r with
      | error e1 =>
        have hred : handle_download_raw n w = (⟨500, some e1⟩, w1) := by
          unfold handle_download_raw
          rw [hext]
        rw [hred]
      | ok d =>
        cases hpick : pick_main_artifact PREFERRED_ARTIFACT_NAME d.entries with
        | error e2 =>
          have hred : handle_download_raw n w = (⟨500, some e2⟩, w1) := by
            unfold handle_download_raw
            rw [hext]
            simp [hpick]
          rw [hred]
        | ok f =>
          have hred : handle_download_raw n w = (⟨200, none⟩, w1) := by
            unfold handle_download_raw
            rw [hext]
            simp [hpick]
          rw [hred] at he
          simp at he

/-- C3 witness: the theorem applied to `wC3` (its only expected part
absent): the handler answers 500 with the missing list in the body. -/
theorem C3_download_missing_parts_500_witness :
    handle_download_raw 1 wC3
      = (⟨500, some (.missingParts (missing_paths 1 wC3.ps))⟩, wC3) :=
  (C3_download_missing_parts_500 1 wC3).1 (by decide)

/-- C3 counterexample: with the single expected part absent, the handler
status is 500, which is not in the 404 class, refuting the claimed
404-class response; the body does enumerate the missing path. -/
theorem C3_counterexample_missing_part_500_not_404 :
    (handle_download_raw 1 wC3).1.status = 500 ∧
    ¬(400 ≤ (handle_download_raw 1 wC3).1.status
        ∧ (handle_download_raw 1 wC3).1.status < 500) ∧
    (handle_download_raw 1 wC3).1.err? = some (.missingParts [part_path 1]) := by
  refine ⟨rfl, by decide, rfl⟩

theorem sizeScan_go (l : List WalkedFile) : ∀ b : WalkedFile,
    l.foldl (fun acc f =>
        if (f.2.length : Int) > acc.2 then (some f, (f.2.length : Int)) else acc)
      (some b, (b.2.length : Int))
    = (some (bestOf b l), ((bestOf b l).2.length : Int)) := by
  induction l with
  | nil => intro b; simp [bestOf]
  | cons f rest ih =>
    intro b
    rw [List.foldl_cons]
    by_cases hgt : (f.2.length : Int) > (b.2.length : Int)
    · rw [if_pos hgt]
      rw [show bestOf b (f :: rest) = bestOf f rest from by
        simp only [bestOf]; rw [if_pos hgt]]
      exact ih f
    · rw [if_neg hgt]
      rw [show bestOf b (f :: rest) = bestOf b rest from by
        simp only [bestOf]; rw [if_neg hgt]]
      exact ih b

theorem sizeScan_cons (f : WalkedFile) (l : List WalkedFile) :
    sizeScan (f :: l) = (some (bestOf f l), ((bestOf f l).2.length : Int)) := by
  unfold sizeScan
  rw [List.foldl_cons]
  rw [if_pos (by have := Int.natCast_nonneg f.2.length; omega)]
  exact sizeScan_go l f

theorem bestOf_spec (l : List WalkedFile) : ∀ b : WalkedFile,
    (∀ g ∈ b :: l, g.2.length ≤ (bestOf b l).2.length) ∧
    ∃ l1 l2, b :: l = l1 ++ (bestOf b l) :: l2 ∧
      ∀ g ∈ l1, g.2.length < (bestOf b l).2.length := by
  induction l with
  | nil =>
    intro b
    refine ⟨?_, [], [], rfl, by simp⟩
    intro g hg
    rw [List.mem_singleton] at hg
    subst hg
    exact Nat.le_refl _
  | cons f rest ih =>
    intro b
    by_cases hgt : (f.2.length : Int) > (b.2.length : Int)
    · have hstep : bestOf b (f :: rest)
          = if (f.2.length : Int) > (b.2.length : Int)
            then bestOf f rest else bestOf b rest := rfl
      have hred : bestOf b (f :: rest) = bestOf f rest := by
        rw [hstep, if_pos hgt]
      obtain ⟨hmax, l1, l2, heq, hlt⟩ := ih f
      have hbf : b.2.length < f.2.length := by exact_mod_cast hgt
      have hfm : f.2.length ≤ (bestOf f rest).2.length :=
        hmax f (List.mem_cons_self f rest)
      constructor
      · intro g hg
        rw [hred]
        rcases List.mem_cons.mp hg with hgb | hg2
        · subst hgb
          omega
        · exact hmax g hg2
      · refine ⟨b :: l1, l2, ?_, ?_⟩
        · rw [hred, List.cons_append, ← heq]
        · intro g hg
          rw [hred]
          rcases List.mem_cons.mp hg with hgb | hg2
          · subst hgb
            omega
          · exact hlt g hg2
    · have hstep : bestOf b (f :: rest)
          = if (f.2.length : Int) > (b.2.length : Int)
            then bestOf f rest else bestOf b rest := rfl
      have hred : bestOf b (f :: rest) = bestOf b rest := by
        rw [hstep, if_neg hgt]
      obtain ⟨hmax, l1, l2, heq, hlt⟩ := ih b
      have hfb : f.2.length ≤ b.2.length := by
        rw [gt_iff_lt, not_lt] at hgt
        exact_mod_cast hgt
      have hbm : b.2.length ≤ (bestOf b rest).2.length :=
        hmax b (List.mem_cons_self b rest)
      constructor
      · intro g hg
        rw [hred]
        rcases List.mem_cons.mp hg with hgb | hg2
        · subst hgb
          exact hbm
        · rcases List.mem_cons.mp hg2 with hgf | hg3
          · subst hgf
            omega
          · exact hmax g (List.mem_cons_of_mem b hg3)
      · cases l1 with
        | nil =>
          rw [List.nil_append] at heq
          injection heq with hb hl
          refine ⟨[], f :: rest, ?_, by simp⟩
          rw [hred, ← hb, List.nil_append]
        | cons a t =>
          rw [List.cons_append] at heq
          injection heq with ha hrest
          have hblt : b.2.length < (bestOf b rest).2.length := by
            have := hlt a (List.mem_cons_self a t)
            rw [← ha] at this
            exact this
          refine ⟨b :: f :: t, l2, ?_, ?_⟩
          · rw [hred, List.cons_append, List.cons_append, ← hrest]
          · intro g hg
            rw [hred]
            rcases List.mem_cons.mp hg with hgb | hg2
            · subst hgb
              exact hblt
            · rcases List.mem_cons.mp hg2 with hgf | hg3
              · subst hgf
                omega
              · have := hlt g (List.mem_cons_of_mem a hg3)
                exact this

/-- C7: artifact selection: a configured preferred name matched
case-insensitively anywhere in the walked tree wins regardless of size (the
first match in walk order); otherwise — no preference, or the preference
matches nothing — the largest walked file wins with ties to the first
encountered in traversal order; a tree with no regular files fails with
`EmptyExtraction`. -/
theorem C7_artifact_selection (es : List Entry) :
    (∀ pn, (∃ g ∈ walkFiles es, py_lower g.1 = py_lower pn) →
      ∃ f, pick_main_artifact (some pn) es = .ok f ∧ py_lower f.1 = py_lower pn
        ∧ f ∈ walkFiles es) ∧
    (∀ pref, (pref = none ∨ ∃ pn, pref = some pn ∧
        ∀ g ∈ walkFiles es, py_lower g.1 ≠ py_lower pn) →
      (walkFiles es = [] → pick_main_artifact pref es = .error .emptyExtraction) ∧
      (walkFiles es ≠ [] →
        ∃ best, pick_main_artifact pref es = .ok best ∧
          (∀ g ∈ walkFiles es, g.2.length ≤ best.2.length) ∧
          ∃ l1 l2, walkFiles es = l1 ++ best :: l2 ∧
            ∀ g ∈ l1, g.2.length < best.2.length)) := by
  constructor
  · intro pn hex
    have hsome : ((walkFiles es).find? (fun f => py_lower f.1 == py_lower pn)).isSome := by
      rw [List.find?_isSome]
      obtain ⟨g, hg, hgl⟩ := hex
      exact ⟨g, hg, by simp [hgl]⟩
    obtain ⟨f, hf⟩ := Option.isSome_iff_exists.mp hsome
    refine ⟨f, ?_, ?_, List.mem_of_find?_eq_some hf⟩
    · simp only [pick_main_artifact, hf]
    · have := List.find?_some hf
      simpa using this
  · intro pref hnm
    have key : pick_main_artifact pref es =
        (match sizeScan (walkFiles es) with
          | (some best, _) => .ok best
          | (none, _) => .error .emptyExtraction) := by
      rcases hnm with hp | ⟨pn, hp, hno⟩
      · subst hp
        rfl
      · subst hp
        have hfind : (walkFiles es).find? (fun f => py_lower f.1 == py_lower pn)
            = none := by
          rw [List.find?_eq_none]
          intro g hg
          simp only [beq_iff_eq]
          exact hno g hg
        simp only [pick_main_artifact, hfind]
    rw [key]
    constructor
    · intro hempty
      rw [hempty]
      rfl
    · intro hne
      cases hw : walkFiles es with
      | nil => exact absurd hw hne
      | cons f l =>
        rw [sizeScan_cons]
        obtain ⟨hmax, l1, l2, heq, hlt⟩ := bestOf_spec l f
        exact ⟨bestOf f l, rfl, hmax, l1, l2, heq, hlt⟩

/-- C7 witness: the theorem applied to the concrete tree `esW` — the
preferred name `setup.EXE` matches `SETUP.exe` case-insensitively and wins
over the larger `big.bin`; without a preference the largest file `big.bin`
wins; the file-less tree `esE` fails with `EmptyExtraction`. -/
theorem C7_artifact_selection_witness :
    (∃ f, pick_main_artifact (some "setup.EXE") esW = .ok f
      ∧ py_lower f.1 = py_lower "setup.EXE" ∧ f ∈ walkFiles esW) ∧
    pick_main_artifact none esW = .ok ("big.bin", [1, 2, 3, 4]) ∧
    pick_main_artifact none esE = .error .emptyExtraction := by
  obtain ⟨h1, -⟩ := C7_artifact_selection esW
  refine ⟨h1 "setup.EXE" ⟨("SETUP.exe", [1, 2]), by decide, by decide⟩, rfl, ?_⟩
  exact ((C7_artifact_selection esE).2 none (Or.inl rfl)).1 rfl

theorem stream_body_take_aux :
    ∀ (k remaining : Nat) (data : List Byte), data.length ≤ k →
      stream_body remaining data = data.take (remaining * CHUNK_SIZE) := by
  intro k
  induction k with
  | zero =>
    intro r data hd
    have hnil : data = [] := by
      cases data with
      | nil => rfl
      | cons b rest => simp at hd
    subst hnil
    simp [stream_body]
  | succ k ih =>
    intro r data hd
    cases data with
    | nil => simp [stream_body]
    | cons b rest =>
      cases r with
      | zero =>
        rw [stream_body]
        rw [show wfile_write 0 ((b :: rest).take CHUNK_SIZE) = .error () from rfl]
        simp
      | succ r2 =>
        rw [stream_body]
        rw [show wfile_write (r2 + 1) ((b :: rest).take CHUNK_SIZE) = .ok r2 from by
          unfold wfile_write
          rw [if_neg (Nat.succ_ne_zero r2)]
          rfl]
        show List.take CHUNK_SIZE (b :: rest)
            ++ stream_body r2 (List.drop CHUNK_SIZE (b :: rest))
          = List.take ((r2 + 1) * CHUNK_SIZE) (b :: rest)
        rw [ih r2 ((b :: rest).drop CHUNK_SIZE)
          (by rw [List.length_drop]
              simp only [List.length_cons] at hd ⊢
              have : CHUNK_SIZE ≠ 0 := by decide
              omega)]
        rw [show (r2 + 1) * CHUNK_SIZE = CHUNK_SIZE + r2 * CHUNK_SIZE from by ring]
        rw [List.take_add]

/-- The write loop delivers exactly the prefix the client accepted. -/
theorem stream_body_take (remaining : Nat) (data : List Byte) :
    stream_body remaining data = data.take (remaining * CHUNK_SIZE) :=
  stream_body_take_aux data.length remaining data le_rfl

/-- C9: a client disconnect during streaming never surfaces from the raw
concatenation path: for every client write capacity (including a broken
pipe mid-stream), the handler produces the streamed 200 outcome rather than
an error response (the write loop catches the broken pipe and returns
normally, which is what makes this total function of the capacity
well-defined), the delivered bytes are the prefix of the concatenated
stream the client accepted — all of it when the capacity suffices — and
the temporary file `CONCAT_TMP` is removed afterwards. -/
theorem C9_disconnect_silent (n remaining : Nat) (w : ConcatWorld)
    (hok : ensure_parts_exist n w.ps = .ok ()) :
    handle_concat n remaining w
      = (.streamed ((concat_volumes n w.ps).take (remaining * CHUNK_SIZE)),
          { w with concatTmp := none }) ∧
    ((concat_volumes n w.ps).length ≤ remaining * CHUNK_SIZE →
      (handle_concat n remaining w).1 = .streamed (concat_volumes n w.ps)) := by
  have hred : handle_concat n remaining w
      = (.streamed (stream_body remaining (concat_volumes n w.ps)),
          { w with concatTmp := none }) := by
    unfold handle_concat
    rw [hok]
  constructor
  · rw [hred, stream_body_take]
  · intro hle
    rw [hred]
    simp only [stream_body_take]
    rw [List.take_of_length_le hle]

/-- C9 witness: the theorem applied to `wC9` — a client disconnecting
before the first chunk still gets the streamed outcome with the leftover
temporary removed, and a client with enough capacity receives the whole
concatenation. -/
theorem C9_disconnect_silent_witness :
    handle_concat 1 0 wC9 = (.streamed [], { wC9 with concatTmp := none }) ∧
    (handle_concat 1 5 wC9).1 = .streamed (concat_volumes 1 wC9.ps) := by
  obtain ⟨h1, -⟩ := C9_disconnect_silent 1 0 wC9 rfl
  obtain ⟨-, h2⟩ := C9_disconnect_silent 1 5 wC9 rfl
  have hlen : (concat_volumes 1 wC9.ps).length = 2 := by
    rw [concat_volumes_length]
    rfl
  refine ⟨?_, h2 (by rw [hlen]; decide)⟩
  rw [h1]
  rfl

end Server
